import Mathlib

/-!
Verification of the incremental extraction cursor and idempotent message
ingestion logic of the signalsifter repository.

The development shallowly embeds the ingestion-relevant parts of
src/discord_extractor.py (class DiscordExtractor and the discord_messages
schema it creates), src/discord_db_schema.py (class DiscordDatabase), and
src/backfill.py (run_backfill), together with the decimal string/integer
conversions the Python code performs (str and int) and the SQLite text
ordering used by MAX over a TEXT column.

Conventions of the embedding:
- machine integers and Discord/Telegram message ids are Nat;
- timestamps are Nat ordinals (ISO-8601 strings compare in timestamp
  order, so the order structure is preserved);
- the SQLite tables are lists of row structures; committed rows and
  rows executed but not yet committed are kept separately so that
  per-record commit behaviour is observable;
- fallible calls (raw JSON write, the per-record INSERT, channel or
  guild resolution, a KeyboardInterrupt arriving mid-iteration) are
  driven by explicit oracle parameters;
- a message source that raises an exception caught by the extractor
  mid-stream is modelled by the list of records it actually yielded.
-/

/-- Decimal digit character, mirroring the characters produced by the
Python built-in str on a nonnegative integer. -/
def digitChar (d : Nat) : Char := Char.ofNat (48 + d)

/-- Little-endian decimal digits of n, with explicit fuel so that the
recursion is structural and kernel-reducible. Any fuel of at least n
gives the digits of n. -/
def decAuxF : Nat → Nat → List Char
  | 0, _ => []
  | _ + 1, 0 => []
  | fuel + 1, n + 1 => digitChar ((n + 1) % 10) :: decAuxF fuel ((n + 1) / 10)

/-- Model of the Python built-in str on a nonnegative int, as used by
str(message.id), str(guild_id) and str(channel_id) in the source. -/
def pyStr (n : Nat) : String := if n = 0 then "0" else ⟨(decAuxF n n).reverse⟩

/-- Value of a single decimal digit character, none for a non-digit. -/
def parseDigit (c : Char) : Option Nat :=
  if 48 ≤ c.toNat ∧ c.toNat ≤ 57 then some (c.toNat - 48) else none

/-- Big-endian decimal accumulation over a character list. -/
def parseDec : List Char → Nat → Option Nat
  | [], acc => some acc
  | c :: cs, acc =>
    match parseDigit c with
    | none => none
    | some d => parseDec cs (acc * 10 + d)

/-- Model of the Python built-in int on a string of decimal digits, as
used by int(row[0]) in the source. On text that is not a nonnegative
decimal numeral Python raises ValueError; the model returns none there,
and every use in this development is on text produced by pyStr. -/
def pyInt (s : String) : Option Nat :=
  if s.data = [] then none else parseDec s.data 0

/-- Byte-wise (memcmp) strict order on character lists: this is the
collating order SQLite uses to compare TEXT values (BINARY collation);
for the ASCII strings stored by the extractor it coincides with a
comparison of UTF-8 bytes. -/
def memcmpLt : List Char → List Char → Bool
  | [], [] => false
  | [], _ :: _ => true
  | _ :: _, [] => false
  | a :: as, b :: bs =>
    if a.toNat < b.toNat then true
    else if b.toNat < a.toNat then false
    else memcmpLt as bs

/-- SQLite TEXT comparison on strings. -/
def textLt (a b : String) : Bool := memcmpLt a.data b.data

/-- One step of the running maximum under the SQLite TEXT order. -/
def maxStep (acc : Option String) (s : String) : Option String :=
  match acc with
  | none => some s
  | some m => if textLt m s then some s else some m

/-- Model of SELECT MAX(col) over a TEXT column: the greatest value in
the SQLite TEXT order, or none (SQL NULL) when there are no rows. -/
def sqliteTextMax (l : List String) : Option String := l.foldl maxStep none

/-- Comparison of two optional watermarks: a missing watermark is below
everything; present watermarks compare numerically. -/
def wmLe (a b : Option Nat) : Bool :=
  match a with
  | none => true
  | some v =>
    match b with
    | none => false
    | some w => v ≤ w

/-- Watermark computed from a list of stored message_id TEXT values,
mirroring discord_extractor.py lines 256-259: the SQL MAX over the TEXT
column, then the Python truthiness test on row[0] (NULL and the empty
string are falsy), then int(...). -/
def watermarkOfIds (ids : List String) : Option Nat :=
  match sqliteTextMax ids with
  | none => none
  | some s => if s = "" then none else pyInt s

/-- Well-formedness of a list of stored message_id values: each one is
the decimal rendering of some nonnegative integer, which is true of
every value the extractor itself stores (it binds str(message.id)). -/
def WFids (l : List String) : Prop := ∀ t ∈ l, ∃ n, t = pyStr n

namespace DE

/-- Discord message record as yielded by channel.history in
discord_extractor.py. Embed and attachment payloads are opaque to every
claim under verification and are omitted; the raw JSON and media files
live outside the database and are represented only by the raw_json_path
column value computed for the row. -/
structure Msg where
  id : Nat
  author_id : Nat
  author_name : String
  created_at : Nat
  edited_at : Option Nat
  content : String
  pinned : Bool
deriving DecidableEq, Repr

/-- Row of the discord_messages table created by ensure_discord_schema
(discord_extractor.py lines 109-133): guild_id, channel_id and
message_id are TEXT columns, the table carries
UNIQUE(guild_id, channel_id, message_id). Embed, attachment and count
columns are omitted as above. -/
structure Row where
  guild_id : String
  channel_id : String
  message_id : String
  author_id : String
  author_username : String
  created_at : Nat
  edited_at : Option Nat
  content : String
  is_pinned : Bool
  raw_json_path : Option String
  processed : Bool
deriving DecidableEq, Repr

/-- Row of the discord_guilds table; descriptive columns that no claim
mentions are omitted. -/
structure GuildRow where
  discord_id : String
  name : String
  last_backfilled_at : Option Nat
deriving DecidableEq, Repr

/-- Row of the discord_channels table; descriptive columns that no
claim mentions are omitted. -/
structure ChanRow where
  discord_id : String
  guild_id : String
  name : String
  last_backfilled_at : Option Nat
deriving DecidableEq, Repr

/-- State of the SQLite database as seen by discord_extractor.py.
committed holds durably committed discord_messages rows; pending holds
rows executed on the connection but not yet committed (the guild and
channel helpers commit within their own call, so only message rows pass
through pending). -/
structure DBState where
  guilds : List GuildRow
  channels : List ChanRow
  committed : List Row
  pending : List Row
deriving DecidableEq, Repr

/-- TEXT message_id values stored for one (guild_id, channel_id) pair,
the rows the WHERE clause of the watermark query selects. -/
def msgIdsFor (db : List Row) (g c : String) : List String :=
  (db.filter fun r => decide (r.guild_id = g ∧ r.channel_id = c)).map (·.message_id)

/-- Watermark query of extract_messages (discord_extractor.py lines
256-259): SELECT MAX(message_id) over the stored TEXT values for the
channel, converted by int(row[0]) when truthy, else None. -/
def last_msg_id (db : List Row) (g c : String) : Option Nat :=
  watermarkOfIds (msgIdsFor db g c)

/-- Resume filter of the extraction loop (line 268): the Python test
"if last_msg_id and message.id <= last_msg_id" — note the truthiness
of last_msg_id, under which a watermark of 0 disables the filter. -/
def skipResume (w : Option Nat) (m : Msg) : Bool :=
  match w with
  | none => false
  | some v => decide (v ≠ 0) && decide (m.id ≤ v)

/-- Date filter of the extraction loop (lines 272-275): a record is
skipped when created_at is strictly before from_date or strictly after
to_date, leaving both bounds inclusive. -/
def skipDate (fromD toD : Option Nat) (m : Msg) : Bool :=
  (match fromD with
   | some f => decide (m.created_at < f)
   | none => false) ||
  (match toD with
   | some t => decide (t < m.created_at)
   | none => false)

/-- Raw JSON path recorded for a message: the per-message file name, or
None when the raw write failed (the failure is caught at lines 305-307
and only nulls the column). -/
def rawPathOf (rawFails : Msg → Bool) (m : Msg) : Option String :=
  if rawFails m then none else some ("message_" ++ pyStr m.id ++ ".json")

/-- Values bound by the INSERT at lines 338-351: ids are stored through
str(...), processed is inserted as 0. -/
def rowOfMsg (g c : Nat) (raw : Option String) (m : Msg) : Row :=
  { guild_id := pyStr g
    channel_id := pyStr c
    message_id := pyStr m.id
    author_id := pyStr m.author_id
    author_username := m.author_name
    created_at := m.created_at
    edited_at := m.edited_at
    content := m.content
    is_pinned := m.pinned
    raw_json_path := raw
    processed := false }

/-- Test for an existing row with the same (guild_id, channel_id,
message_id) key, the UNIQUE constraint consulted by INSERT OR IGNORE. -/
def dupKey (rows : List Row) (r : Row) : Bool :=
  rows.any fun x =>
    decide (x.guild_id = r.guild_id ∧ x.channel_id = r.channel_id ∧
            x.message_id = r.message_id)

/-- Effect of executing INSERT OR IGNORE INTO discord_messages on the
connection: when a row with the same unique key exists (committed or
pending in the same transaction) the statement is a no-op, otherwise
the new row becomes pending until the next commit. -/
def execInsertMsg (s : DBState) (r : Row) : DBState :=
  if dupKey (s.committed ++ s.pending) r then s
  else { s with pending := s.pending ++ [r] }

/-- Effect of conn.commit(): pending rows become durable. -/
def commitDB (s : DBState) : DBState :=
  { s with committed := s.committed ++ s.pending, pending := [] }

/-- Body of the extraction loop for one yielded message
(discord_extractor.py lines 266-360): resume filter, date filter, raw
JSON write (failure caught, nulls the path), INSERT OR IGNORE (failure
caught at lines 359-360, leaving the state untouched), then an
immediate conn.commit(). -/
def stepMsg (g c : Nat) (w fromD toD : Option Nat)
    (rawFails insertFails : Msg → Bool) (s : DBState) (m : Msg) : DBState :=
  if skipResume w m then s
  else if skipDate fromD toD m then s
  else if insertFails m then s
  else commitDB (execInsertMsg s (rowOfMsg g c (rawPathOf rawFails m) m))

/-- Rows the loop durably adds for a given already-committed table and
source, in order: exactly the records that pass both filters, whose
INSERT does not raise, and whose unique key is not already present at
the moment of their insert. -/
def writtenRows (g c : Nat) (w fromD toD : Option Nat)
    (rawFails insertFails : Msg → Bool) : List Row → List Msg → List Row
  | _, [] => []
  | cur, m :: ms =>
    if skipResume w m then writtenRows g c w fromD toD rawFails insertFails cur ms
    else if skipDate fromD toD m then
      writtenRows g c w fromD toD rawFails insertFails cur ms
    else if insertFails m then
      writtenRows g c w fromD toD rawFails insertFails cur ms
    else
      let r := rowOfMsg g c (rawPathOf rawFails m) m
      if dupKey cur r then writtenRows g c w fromD toD rawFails insertFails cur ms
      else r :: writtenRows g c w fromD toD rawFails insertFails (cur ++ [r]) ms

/-- INSERT OR REPLACE keyed on the UNIQUE discord_id column of
discord_guilds: the conflicting row is deleted and the new row
inserted. -/
def replaceGuild (gs : List GuildRow) (r : GuildRow) : List GuildRow :=
  (gs.filter fun x => !decide (x.discord_id = r.discord_id)) ++ [r]

/-- INSERT OR REPLACE keyed on the UNIQUE discord_id column of
discord_channels. -/
def replaceChan (cs : List ChanRow) (r : ChanRow) : List ChanRow :=
  (cs.filter fun x => !decide (x.discord_id = r.discord_id)) ++ [r]

/-- UPDATE discord_channels SET last_backfilled_at = ? WHERE
discord_id = ? (line 366). -/
def updateChannelBackfilled (cs : List ChanRow) (c : String) (now : Nat) :
    List ChanRow :=
  cs.map fun x =>
    if x.discord_id = c then { x with last_backfilled_at := some now } else x

/-- extract_guild_info (lines 193-211): raises ValueError when the bot
cannot see the guild (none); otherwise INSERT OR REPLACE the guild row,
whose last_backfilled_at column is bound to the current time, and
commit. -/
def extract_guild_info (guildOk : Bool) (g : Nat) (gname : String)
    (startNow : Nat) (s : DBState) : Option DBState :=
  if guildOk then
    let r : GuildRow :=
      { discord_id := pyStr g, name := gname, last_backfilled_at := some startNow }
    some { s with guilds := replaceGuild s.guilds r }
  else none

/-- extract_channel_info (lines 213-232): raises ValueError when the
channel is not visible (none); otherwise INSERT OR REPLACE the channel
row, whose last_backfilled_at column is bound to the current time, and
commit. -/
def extract_channel_info (chanOk : Bool) (g c : Nat) (cname : String)
    (startNow : Nat) (s : DBState) : Option DBState :=
  if chanOk then
    let r : ChanRow :=
      { discord_id := pyStr c, guild_id := pyStr g, name := cname,
        last_backfilled_at := some startNow }
    some { s with channels := replaceChan s.channels r }
  else none

/-- extract_messages (discord_extractor.py lines 234-371). Returns the
database state and whether the call returned normally. Resolution
failures propagate before any message work. The message loop sits in a
try/except catching Exception, so a source that raises mid-stream is
modelled by the prefix of records it yielded and the run still reaches
the final UPDATE. A KeyboardInterrupt is not an Exception and escapes
the handler: interruptAfter gives the number of records processed
before one arrives, in which case the final UPDATE of
last_backfilled_at never runs. -/
def extract_messages (guildOk chanOk : Bool) (g c : Nat)
    (gname cname : String) (fromD toD : Option Nat)
    (rawFails insertFails : Msg → Bool) (source : List Msg)
    (interruptAfter : Option Nat) (startNow endNow : Nat)
    (s : DBState) : DBState × Bool :=
  match extract_guild_info guildOk g gname startNow s with
  | none => (s, false)
  | some s1 =>
    match extract_channel_info chanOk g c cname startNow s1 with
    | none => (s1, false)
    | some s2 =>
      let w := last_msg_id s2.committed (pyStr g) (pyStr c)
      match interruptAfter with
      | some k =>
        ((source.take k).foldl (stepMsg g c w fromD toD rawFails insertFails) s2,
         false)
      | none =>
        let s3 := source.foldl (stepMsg g c w fromD toD rawFails insertFails) s2
        ({ s3 with
            channels := updateChannelBackfilled s3.channels (pyStr c) endNow },
         true)

/-- Parameters of one extract_messages call, used to reason about
sequences of ingestion runs. -/
structure RunSpec where
  guildOk : Bool
  chanOk : Bool
  g : Nat
  c : Nat
  gname : String
  cname : String
  fromD : Option Nat
  toD : Option Nat
  rawFails : Msg → Bool
  insertFails : Msg → Bool
  source : List Msg
  interruptAfter : Option Nat
  startNow : Nat
  endNow : Nat

/-- Database state left behind by one run. -/
def applyRun (s : DBState) (rs : RunSpec) : DBState :=
  (extract_messages rs.guildOk rs.chanOk rs.g rs.c rs.gname rs.cname
    rs.fromD rs.toD rs.rawFails rs.insertFails rs.source rs.interruptAfter
    rs.startNow rs.endNow s).1

/-- Lookup of the last_backfilled_at column of a channel row, none when
the channel has no row. -/
def lookupChan (cs : List ChanRow) (c : String) : Option (Option Nat) :=
  match cs.find? fun x => decide (x.discord_id = c) with
  | none => none
  | some x => some x.last_backfilled_at

/-- Well-formedness of the stored message table: every message_id TEXT
value is the decimal rendering of an integer, as the extractor writes
them. -/
def WFdb (db : List Row) : Prop := ∀ r ∈ db, ∃ n, r.message_id = pyStr n

/-- Uniqueness invariant of the discord_messages table: no two rows
share the (guild_id, channel_id, message_id) key. -/
def UniqKeys (db : List Row) : Prop :=
  db.Pairwise fun a b =>
    ¬(a.guild_id = b.guild_id ∧ a.channel_id = b.channel_id ∧
      a.message_id = b.message_id)

end DE

namespace DDB

/-- Argument dictionary of DiscordDatabase.insert_message
(discord_db_schema.py lines 207-245): message_data.get(key) yields None
for absent keys, so every field is optional. Reaction, embed,
attachment and mention payloads are opaque TEXT and are omitted. -/
structure MsgData where
  message_id : Option String
  channel_id : Option String
  server_id : Option String
  user_id : Option String
  username : Option String
  content : Option String
  timestamp : Option Nat
  is_bot : Bool
  is_pinned : Bool
deriving DecidableEq, Repr

/-- Row of the discord_messages table created by
DiscordDatabase.create_discord_tables (discord_db_schema.py lines
67-93), whose primary key is message_id alone. -/
structure DMRow where
  message_id : Option String
  channel_id : Option String
  server_id : Option String
  user_id : Option String
  username : Option String
  content : Option String
  timestamp : Option Nat
  is_bot : Bool
  is_pinned : Bool
deriving DecidableEq, Repr

/-- Row bound by the INSERT of insert_message. -/
def rowOfData (m : MsgData) : DMRow :=
  { message_id := m.message_id
    channel_id := m.channel_id
    server_id := m.server_id
    user_id := m.user_id
    username := m.username
    content := m.content
    timestamp := m.timestamp
    is_bot := m.is_bot
    is_pinned := m.is_pinned }

/-- INSERT OR REPLACE INTO discord_messages keyed on the message_id
primary key: a conflicting existing row is deleted and the new row
inserted. -/
def insertOrReplaceDM (db : List DMRow) (r : DMRow) : List DMRow :=
  (db.filter fun x => !decide (x.message_id = r.message_id)) ++ [r]

/-- Observable outcome of one insert_message call: the exception it
raised if any, the value it returned if it returned, whether a
connection was opened and whether it was closed, and the resulting
committed table. -/
structure InsertOutcome where
  raised : Option String
  ret : Option Bool
  opened : Bool
  closed : Bool
  db : List DMRow
deriving DecidableEq, Repr

/-- DiscordDatabase.insert_message (discord_db_schema.py lines
207-245). self.get_connection() runs before the try block, so a
sqlite3 error while opening the connection (connectErr) propagates to
the caller with no connection to close. Inside the try block, a
sqlite3.Error from execute or commit (sqlErr) is caught and logged and
False is returned; otherwise the INSERT OR REPLACE commits and True is
returned. The finally clause closes the connection on both of those
paths. -/
def insert_message (connectErr sqlErr : Option String) (db : List DMRow)
    (m : MsgData) : InsertOutcome :=
  match connectErr with
  | some e => { raised := some e, ret := none, opened := false, closed := false, db := db }
  | none =>
    match sqlErr with
    | some _ => { raised := none, ret := some false, opened := true, closed := true, db := db }
    | none =>
      { raised := none, ret := some true, opened := true, closed := true,
        db := insertOrReplaceDM db (rowOfData m) }

/-- Uniqueness of the message_id primary key in the
DiscordDatabase-managed discord_messages table. -/
def UniqIds (db : List DMRow) : Prop :=
  db.Pairwise fun a b => a.message_id ≠ b.message_id

end DDB

namespace TG

/-- Telegram message as yielded by client.iter_messages in
backfill.py; media, forward and sender metadata that no claim touches
are omitted. -/
structure Msg where
  id : Nat
  date : Nat
  edit_date : Option Nat
  text : Option String
  sender_username : Option String
deriving DecidableEq, Repr

/-- Modelled from the spec: the messages table is declared in
db_schema.sql, which is not in the source tree (backfill.py line 35
reads it from the working directory). The spec states that
(channel_id, message_id) is unique and that the watermark is the
numerically highest message_id, so message_id is modelled as a numeric
column with that unique key. -/
structure Row where
  channel_id : String
  message_id : Nat
  date : Nat
  text : Option String
  processed : Bool
deriving DecidableEq, Repr

/-- Row of the channels table of backfill.py (tg_id is the unique
channel key; title and username descriptive columns are collapsed to
title). -/
structure Chan where
  tg_id : String
  title : Option String
  last_backfilled_at : Option Nat
deriving DecidableEq, Repr

/-- State of the backfill SQLite database: durable rows and rows
executed but not yet committed. -/
structure TGState where
  channels : List Chan
  committed : List Row
  pending : List Row
deriving DecidableEq, Repr

/-- Modelled from the spec: with the numeric message_id column of the
missing db_schema.sql, SELECT MAX(message_id) WHERE channel_id = ?
(backfill.py lines 68-70) is the numeric maximum, or None (NULL) when
the channel has no rows; fetchone() always yields a row for an
aggregate, so only the NULL case gives None. -/
def lastMsgIdTg (db : List Row) (c : String) : Option Nat :=
  (db.filter fun r => decide (r.channel_id = c)).foldl
    (fun acc r =>
      match acc with
      | none => some r.message_id
      | some m => some (Nat.max m r.message_id))
    none

/-- INSERT OR IGNORE INTO channels (backfill.py lines 63-64): a no-op
when a row with the same tg_id exists, else a new row whose
last_backfilled_at is NULL. -/
def insertChannelIgnore (cs : List Chan) (r : Chan) : List Chan :=
  if cs.any fun x => decide (x.tg_id = r.tg_id) then cs else cs ++ [r]

/-- UPDATE channels SET last_backfilled_at = ? WHERE tg_id = ?
(backfill.py line 156). -/
def updateChanTg (cs : List Chan) (c : String) (now : Nat) : List Chan :=
  cs.map fun x =>
    if x.tg_id = c then { x with last_backfilled_at := some now } else x

/-- Duplicate test against the spec-modelled UNIQUE(channel_id,
message_id) key of the messages table. -/
def dupKeyTg (rows : List Row) (r : Row) : Bool :=
  rows.any fun x => decide (x.channel_id = r.channel_id ∧ x.message_id = r.message_id)

/-- Effect of executing INSERT OR IGNORE INTO messages. -/
def execInsertTg (s : TGState) (r : Row) : TGState :=
  if dupKeyTg (s.committed ++ s.pending) r then s
  else { s with pending := s.pending ++ [r] }

/-- Effect of conn.commit() on the backfill connection. -/
def commitTg (s : TGState) : TGState :=
  { s with committed := s.committed ++ s.pending, pending := [] }

/-- Row bound by the INSERT of backfill.py lines 134-151. -/
def rowOfTgMsg (cid : Nat) (m : Msg) : Row :=
  { channel_id := pyStr cid
    message_id := m.id
    date := m.date
    text := m.text
    processed := false }

/-- Body of the backfill loop for one yielded message (backfill.py
lines 80-154): date filters first (strictly-before from_date and
strictly-after to_date are skipped, both bounds inclusive), then the
resume filter with the Python truthiness test on last_msg_id, then the
raw JSON write and media download whose failures are caught and do not
touch the database, then INSERT OR IGNORE whose failure is caught at
lines 153-154, then an immediate conn.commit(). -/
def stepTg (cid : Nat) (w fromD toD : Option Nat)
    (insertFails : Msg → Bool) (s : TGState) (m : Msg) : TGState :=
  if (match fromD with
      | some f => decide (m.date < f)
      | none => false) then s
  else if (match toD with
           | some t => decide (t < m.date)
           | none => false) then s
  else if (match w with
           | none => false
           | some v => decide (v ≠ 0) && decide (m.id ≤ v)) then s
  else if insertFails m then s
  else commitTg (execInsertTg s (rowOfTgMsg cid m))

/-- run_backfill (backfill.py lines 41-160). When the channel cannot
be resolved the function prints, disconnects and returns normally with
nothing written (lines 48-53). Otherwise it upserts the channel row,
reads the watermark, iterates the source, and on reaching the end of
the iteration updates last_backfilled_at and commits (lines 155-157).
An exception raised by iter_messages itself is not caught anywhere in
the function: iterErrAfter gives the number of records yielded before
one arrives, in which case the exception propagates and the
last_backfilled_at update never runs. The returned Bool records
whether the loop and final update completed. -/
def run_backfill (resolveOk : Bool) (cid : Nat) (title : Option String)
    (fromD toD : Option Nat) (insertFails : Msg → Bool)
    (source : List Msg) (iterErrAfter : Option Nat) (now : Nat)
    (s : TGState) : TGState × Bool :=
  if resolveOk then
    let r : Chan :=
      { tg_id := pyStr cid, title := title, last_backfilled_at := none }
    let s1 := { s with channels := insertChannelIgnore s.channels r }
    let w := lastMsgIdTg s1.committed (pyStr cid)
    match iterErrAfter with
    | some k => ((source.take k).foldl (stepTg cid w fromD toD insertFails) s1, false)
    | none =>
      let s2 := source.foldl (stepTg cid w fromD toD insertFails) s1
      ({ s2 with channels := updateChanTg s2.channels (pyStr cid) now }, true)
  else (s, false)

/-- Lookup of the last_backfilled_at column of a backfill channel row. -/
def lookupChanTg (cs : List Chan) (c : String) : Option (Option Nat) :=
  match cs.find? fun x => decide (x.tg_id = c) with
  | none => none
  | some x => some x.last_backfilled_at

end TG

/-- Process exit status of python backfill.py (lines 162-174): argparse
succeeds, asyncio.run executes run_backfill, and the interpreter exits
with 0 unless an exception escapes. client.start() failing raises out
of asyncio.run, ending the process with status 1; an unresolvable
channel is caught inside run_backfill, which returns normally, so the
process exits 0; an exception from iter_messages mid-run also escapes
and ends the process with status 1. -/
def backfill_main (loginOk resolveOk : Bool) (iterErr : Bool) : Nat :=
  if !loginOk then 1
  else if !resolveOk then 0
  else if iterErr then 1
  else 0

/-- Outcome of run_discord_extraction as seen by the __main__ block of
discord_extractor.py. -/
inductive DiscordRunOutcome where
  | ok : DiscordRunOutcome
  | interrupted : DiscordRunOutcome
  | failed : String → DiscordRunOutcome
deriving DecidableEq, Repr

/-- Process exit status of python discord_extractor.py (lines 424-436):
the try block catches KeyboardInterrupt and every Exception — including
the ValueError raised for an unresolvable guild or channel — and only
prints, so the interpreter always exits 0. -/
def discord_main : DiscordRunOutcome → Nat
  | .ok => 0
  | .interrupted => 0
  | .failed _ => 0

/-! Concrete records, sources and runs used to instantiate the claims
on explicit inputs. -/

/-- Oracle for runs in which no per-record operation fails. -/
def noFail : DE.Msg → Bool := fun _ => false

/-- Fresh database with no guilds, channels or messages. -/
def emptyDB : DE.DBState := { guilds := [], channels := [], committed := [], pending := [] }

/-- Discord message number i, timestamped i. -/
def demoMsg (i : Nat) : DE.Msg :=
  { id := i, author_id := 5, author_name := "alice", created_at := i,
    edited_at := none, content := "hello", pinned := false }

/-- Source that yields records 1,2,3,4,5 oldest first. -/
def demoSrc5 : List DE.Msg := [demoMsg 1, demoMsg 2, demoMsg 3, demoMsg 4, demoMsg 5]

/-- First ingestion run over the five-record source, interrupted after
durably writing records 1,2,3. -/
def resumeRun1 : DE.DBState × Bool :=
  DE.extract_messages true true 7 42 "guild" "chan" none none noFail noFail
    demoSrc5 (some 3) 10 11 emptyDB

/-- Second ingestion run over the same source against the state the
interrupted run left behind. -/
def resumeRun2 : DE.DBState × Bool :=
  DE.extract_messages true true 7 42 "guild" "chan" none none noFail noFail
    demoSrc5 none 20 21 resumeRun1.1

/-- Database already holding record 3 of channel 42, so that the
channel watermark is 3. -/
def wm3DB : DE.DBState :=
  { guilds := [], channels := [], committed := [DE.rowOfMsg 7 42 none (demoMsg 3)],
    pending := [] }

/-- Run with date window [1, 9] over a source yielding the in-range
record 2, against the watermark-3 database. -/
def wm3Run : DE.DBState × Bool :=
  DE.extract_messages true true 7 42 "guild" "chan" (some 1) (some 9) noFail noFail
    [demoMsg 2] none 10 11 wm3DB

/-- Source yielding records 1 through 10, record i dated i. -/
def dateSrc : List DE.Msg := (List.range 10).map fun i => demoMsg (i + 1)

/-- Fresh-channel run over dateSrc with inclusive date window [3, 7]. -/
def dateRun : DE.DBState × Bool :=
  DE.extract_messages true true 7 42 "guild" "chan" (some 3) (some 7) noFail noFail
    dateSrc none 10 11 emptyDB

/-- Database whose channel 42 was last backfilled at time 5. -/
def lb5DB : DE.DBState :=
  { guilds := [],
    channels := [{ discord_id := pyStr 42, guild_id := pyStr 7, name := "chan",
                   last_backfilled_at := some 5 }],
    committed := [], pending := [] }

/-- Run against lb5DB that is interrupted before processing any
record: it resolves the guild and the channel and then dies. -/
def lb5Run : DE.DBState × Bool :=
  DE.extract_messages true true 7 42 "guild" "chan" none none noFail noFail
    demoSrc5 (some 0) 99 100 lb5DB

/-- Message dictionary for message 777 of channel 42 with content a. -/
def dataA : DDB.MsgData :=
  { message_id := some "777", channel_id := some "42", server_id := some "7",
    user_id := some "5", username := some "alice", content := some "a",
    timestamp := some 1, is_bot := false, is_pinned := false }

/-- Message dictionary with the same (channel_id, message_id) key as
dataA but content b. -/
def dataB : DDB.MsgData := { dataA with content := some "b" }

/-- Database rows produced by ingesting records 9 and 10 for channel
42, whose TEXT message_id values are the strings 9 and 10. -/
def lexDB : List DE.Row := [DE.rowOfMsg 7 42 none (demoMsg 9), DE.rowOfMsg 7 42 none (demoMsg 10)]

/-- Oracle under which the INSERT for record 3 raises and is caught at
the per-record boundary. -/
def failOn3 : DE.Msg → Bool := fun m => decide (m.id = 3)

/-- A complete ingestion run of the five-record source on channel 42. -/
def demoRunSpec : DE.RunSpec :=
  { guildOk := true, chanOk := true, g := 7, c := 42, gname := "guild",
    cname := "chan", fromD := none, toD := none, rawFails := noFail,
    insertFails := noFail, source := demoSrc5, interruptAfter := none,
    startNow := 10, endNow := 11 }

/-- Run ingesting record 1 of channel 42 under guild 7. -/
def guild7Run : DE.DBState × Bool :=
  DE.extract_messages true true 7 42 "guildA" "chan" none none noFail noFail
    [demoMsg 1] none 10 11 emptyDB

/-- Run ingesting record 1 of the same channel 42, but named under
guild 8, against the state guild7Run left behind. -/
def guild8Run : DE.DBState × Bool :=
  DE.extract_messages true true 8 42 "guildB" "chan" none none noFail noFail
    [demoMsg 1] none 20 21 guild7Run.1

/-! Arithmetic and string lemmas about the Python str/int models and
the SQLite TEXT ordering. -/

theorem digitChar_toNat {d : Nat} (h : d < 10) : (digitChar d).toNat = 48 + d := by
  interval_cases d <;> decide

theorem pyStr_ne_empty (n : Nat) : pyStr n ≠ "" := by
  match n with
  | 0 => decide
  | m + 1 =>
    intro h
    have hd := congrArg String.data h
    simp [pyStr, decAuxF] at hd

theorem parseDec_append (l1 l2 : List Char) (acc : Nat) :
    parseDec (l1 ++ l2) acc =
      match parseDec l1 acc with
      | none => none
      | some v => parseDec l2 v := by
  induction l1 generalizing acc with
  | nil => rfl
  | cons c cs ih =>
    cases h : parseDigit c with
    | none => simp [parseDec, h]
    | some d => simp [parseDec, h, ih]

theorem parseDigit_digitChar {d : Nat} (h : d < 10) :
    parseDigit (digitChar d) = some d := by
  unfold parseDigit
  rw [digitChar_toNat h, if_pos (by omega)]
  congr 1
  omega

theorem parseDec_single (c : Char) (v d : Nat) (h : parseDigit c = some d) :
    parseDec [c] v = some (v * 10 + d) := by
  simp [parseDec, h]

theorem parseDec_decAuxF :
    ∀ (fuel n acc : Nat), n ≤ fuel →
      parseDec ((decAuxF fuel n).reverse) acc =
        some (acc * 10 ^ (decAuxF fuel n).length + n) := by
  intro fuel
  induction fuel with
  | zero =>
    intro n acc h
    have h0 : n = 0 := Nat.le_zero.mp h
    subst h0
    simp [decAuxF, parseDec]
  | succ f ih =>
    intro n acc h
    match n with
    | 0 => simp [decAuxF, parseDec]
    | m + 1 =>
      have hq : (m + 1) / 10 ≤ f := by
        have := Nat.div_lt_self (Nat.succ_pos m) (by norm_num : 1 < 10)
        omega
      have hr : (m + 1) % 10 < 10 := Nat.mod_lt _ (by norm_num)
      rw [show decAuxF (f + 1) (m + 1) =
            digitChar ((m + 1) % 10) :: decAuxF f ((m + 1) / 10) from rfl]
      rw [List.reverse_cons, parseDec_append, ih ((m + 1) / 10) acc hq]
      show parseDec [digitChar ((m + 1) % 10)]
          (acc * 10 ^ (decAuxF f ((m + 1) / 10)).length + (m + 1) / 10) = _
      rw [parseDec_single _ _ _ (parseDigit_digitChar hr)]
      have hmod := Nat.div_add_mod (m + 1) 10
      congr 1
      rw [List.length_cons, pow_succ, ← mul_assoc]
      generalize acc * 10 ^ (decAuxF f ((m + 1) / 10)).length = A at *
      calc (A + (m + 1) / 10) * 10 + (m + 1) % 10
          = A * 10 + (10 * ((m + 1) / 10) + (m + 1) % 10) := by ring
        _ = A * 10 + (m + 1) := by rw [hmod]

theorem pyInt_pyStr (n : Nat) : pyInt (pyStr n) = some n := by
  match n with
  | 0 => decide
  | m + 1 =>
    have h := parseDec_decAuxF (m + 1) (m + 1) 0 (le_refl _)
    have hne : (decAuxF (m + 1) (m + 1)).reverse ≠ [] := by
      simp [show decAuxF (m + 1) (m + 1) =
        digitChar ((m + 1) % 10) :: decAuxF m ((m + 1) / 10) from rfl]
    simp only [pyInt, pyStr, if_neg (Nat.succ_ne_zero m)]
    rw [if_neg hne, h]
    simp

theorem memcmpLt_irrefl (l : List Char) : memcmpLt l l = false := by
  induction l with
  | nil => rfl
  | cons a as ih => simp [memcmpLt, ih]

theorem memcmpLt_trans :
    ∀ {a b c : List Char}, memcmpLt a b = true → memcmpLt b c = true →
      memcmpLt a c = true := by
  intro a
  induction a with
  | nil =>
    intro b c h1 h2
    cases b with
    | nil => simp [memcmpLt] at h1
    | cons y ys =>
      cases c with
      | nil => simp [memcmpLt] at h2
      | cons z zs => simp [memcmpLt]
  | cons x xs ih =>
    intro b c h1 h2
    cases b with
    | nil => simp [memcmpLt] at h1
    | cons y ys =>
      cases c with
      | nil => simp [memcmpLt] at h2
      | cons z zs =>
        simp only [memcmpLt] at h1 h2 ⊢
        split_ifs at h1 h2 ⊢ <;>
          first
          | rfl
          | omega
          | exact ih h1 h2

theorem memcmpLt_false_trans :
    ∀ {a b c : List Char}, memcmpLt a b = false → memcmpLt b c = false →
      memcmpLt a c = false := by
  intro a
  induction a with
  | nil =>
    intro b c h1 h2
    cases b with
    | nil =>
      cases c with
      | nil => rfl
      | cons z zs => simp [memcmpLt] at h2
    | cons y ys => simp [memcmpLt] at h1
  | cons x xs ih =>
    intro b c h1 h2
    cases c with
    | nil => cases xs <;> rfl
    | cons z zs =>
      cases b with
      | nil => simp [memcmpLt] at h2
      | cons y ys =>
        simp only [memcmpLt] at h1 h2 ⊢
        split_ifs at h1 h2 ⊢ <;>
          first
          | rfl
          | omega
          | exact ih h1 h2

theorem textLt_irrefl (s : String) : textLt s s = false := memcmpLt_irrefl s.data

theorem textLt_trans {a b c : String} (h1 : textLt a b = true)
    (h2 : textLt b c = true) : textLt a c = true := memcmpLt_trans h1 h2

theorem textLt_false_trans {a b c : String} (h1 : textLt a b = false)
    (h2 : textLt b c = false) : textLt a c = false := memcmpLt_false_trans h1 h2

theorem foldl_maxStep_mem :
    ∀ (l : List String) (acc : Option String) (s : String),
      l.foldl maxStep acc = some s → s ∈ l ∨ acc = some s := by
  intro l
  induction l with
  | nil => intro acc s h; right; exact h
  | cons t ts ih =>
    intro acc s h
    rcases ih (maxStep acc t) s h with hmem | hacc
    · exact Or.inl (List.mem_cons_of_mem _ hmem)
    · cases acc with
      | none =>
        simp only [maxStep] at hacc
        have hts : t = s := Option.some.inj hacc
        exact Or.inl (by rw [← hts]; exact List.mem_cons_self _ _)
      | some m =>
        simp only [maxStep] at hacc
        by_cases hlt : textLt m t
        · rw [if_pos hlt] at hacc
          have hts : t = s := Option.some.inj hacc
          exact Or.inl (by rw [← hts]; exact List.mem_cons_self _ _)
        · rw [if_neg hlt] at hacc
          exact Or.inr hacc

theorem foldl_maxStep_isSome :
    ∀ (l : List String) (a : String), (l.foldl maxStep (some a)).isSome := by
  intro l
  induction l with
  | nil => intro a; rfl
  | cons t ts ih =>
    intro a
    show (ts.foldl maxStep (maxStep (some a) t)).isSome
    simp only [maxStep]
    by_cases hlt : textLt a t
    · rw [if_pos hlt]; exact ih t
    · rw [if_neg hlt]; exact ih a

theorem sqliteTextMax_eq_none_iff (l : List String) :
    sqliteTextMax l = none ↔ l = [] := by
  constructor
  · intro h
    cases l with
    | nil => rfl
    | cons t ts =>
      have hs : (ts.foldl maxStep (some t)).isSome := foldl_maxStep_isSome ts t
      rw [show sqliteTextMax (t :: ts) = ts.foldl maxStep (some t) from rfl] at h
      rw [h] at hs
      exact absurd hs (by simp)
  · intro h; subst h; rfl

theorem foldl_maxStep_ge_acc :
    ∀ (l : List String) (a s : String), l.foldl maxStep (some a) = some s →
      textLt s a = false := by
  intro l
  induction l with
  | nil =>
    intro a s h
    simp only [List.foldl_nil, Option.some.injEq] at h
    rw [← h]
    exact textLt_irrefl a
  | cons t ts ih =>
    intro a s h
    simp only [List.foldl_cons, maxStep] at h
    by_cases hlt : textLt a t
    · rw [if_pos hlt] at h
      have hst := ih t s h
      cases hsa : textLt s a with
      | false => rfl
      | true => exact absurd (textLt_trans hsa hlt) (by simp [hst])
    · rw [if_neg hlt] at h
      exact ih a s h

theorem foldl_maxStep_ge :
    ∀ (l : List String) (acc : Option String) (s : String),
      l.foldl maxStep acc = some s → ∀ x ∈ l, textLt s x = false := by
  intro l
  induction l with
  | nil => intro acc s _ x hx; exact absurd hx (List.not_mem_nil x)
  | cons t ts ih =>
    intro acc s h x hx
    rcases List.mem_cons.mp hx with hxt | hxts
    · subst hxt
      cases acc with
      | none => exact foldl_maxStep_ge_acc ts x s h
      | some m =>
        simp only [List.foldl_cons, maxStep] at h
        cases hlt : textLt m x with
        | true =>
          rw [if_pos hlt] at h
          exact foldl_maxStep_ge_acc ts x s h
        | false =>
          rw [if_neg (by simp [hlt])] at h
          exact textLt_false_trans (foldl_maxStep_ge_acc ts m s h) hlt
    · exact ih (maxStep acc t) s h x hxts

theorem foldl_maxStep_wm :
    ∀ (new : List String) (acc : Option String) (v : Nat),
      (∃ s, acc = some s ∧ s ≠ "" ∧ ∃ u, pyInt s = some u ∧ v ≤ u) →
      (∀ t ∈ new, ∃ n, t = pyStr n ∧ (v ≠ 0 → v < n)) →
      ∃ s, new.foldl maxStep acc = some s ∧ s ≠ "" ∧
        ∃ u, pyInt s = some u ∧ v ≤ u := by
  intro new
  induction new with
  | nil => intro acc v hacc _; exact hacc
  | cons t ts ih =>
    intro acc v hacc hnew
    apply ih (maxStep acc t) v
    · obtain ⟨s, hs, hne, u, hu, hvu⟩ := hacc
      subst hs
      simp only [maxStep]
      by_cases hlt : textLt s t
      · rw [if_pos hlt]
        obtain ⟨n, htn, hvn⟩ := hnew t (List.mem_cons_self _ _)
        subst htn
        refine ⟨pyStr n, rfl, pyStr_ne_empty n, n, pyInt_pyStr n, ?_⟩
        by_cases hv : v = 0
        · omega
        · exact Nat.le_of_lt (hvn hv)
      · rw [if_neg hlt]
        exact ⟨s, rfl, hne, u, hu, hvu⟩
    · intro x hx
      exact hnew x (List.mem_cons_of_mem _ hx)

theorem wm_mono (old new : List String)
    (hnew : ∀ t ∈ new, ∃ n, t = pyStr n ∧
      (∀ v, watermarkOfIds old = some v → v ≠ 0 → v < n)) :
    wmLe (watermarkOfIds old) (watermarkOfIds (old ++ new)) = true := by
  cases hw : watermarkOfIds old with
  | none => rfl
  | some v =>
    have hmax : ∃ s, sqliteTextMax old = some s ∧ s ≠ "" ∧ pyInt s = some v := by
      unfold watermarkOfIds at hw
      cases hm : sqliteTextMax old with
      | none => rw [hm] at hw; exact absurd hw (by simp)
      | some s =>
        rw [hm] at hw
        dsimp only at hw
        by_cases hne : s = ""
        · rw [if_pos hne] at hw; exact absurd hw (by simp)
        · rw [if_neg hne] at hw; exact ⟨s, rfl, hne, hw⟩
    obtain ⟨s, hs, hne, hv⟩ := hmax
    have happ : sqliteTextMax (old ++ new) = new.foldl maxStep (some s) := by
      unfold sqliteTextMax
      rw [List.foldl_append]
      unfold sqliteTextMax at hs
      rw [hs]
    have hstep := foldl_maxStep_wm new (some s) v
      ⟨s, rfl, hne, v, hv, le_refl v⟩
      (by intro t ht; obtain ⟨n, htn, hvn⟩ := hnew t ht; exact ⟨n, htn, hvn v hw⟩)
    obtain ⟨s2, hs2, hne2, u, hu, hvu⟩ := hstep
    unfold watermarkOfIds
    rw [happ, hs2]
    dsimp only
    rw [if_neg hne2, hu]
    simpa [wmLe] using hvu

/-! Behaviour of the discord_extractor.py extraction loop. -/

namespace DE

theorem foldl_stepMsg_spec (g c : Nat) (w f t : Option Nat)
    (rf inf : Msg → Bool) :
    ∀ (ms : List Msg) (s : DBState), s.pending = [] →
      (ms.foldl (stepMsg g c w f t rf inf) s).guilds = s.guilds ∧
      (ms.foldl (stepMsg g c w f t rf inf) s).channels = s.channels ∧
      (ms.foldl (stepMsg g c w f t rf inf) s).pending = [] ∧
      (ms.foldl (stepMsg g c w f t rf inf) s).committed =
        s.committed ++ writtenRows g c w f t rf inf s.committed ms := by
  intro ms
  induction ms with
  | nil =>
    intro s hp
    refine ⟨rfl, rfl, hp, ?_⟩
    simp [writtenRows]
  | cons m ms ih =>
    intro s hp
    obtain ⟨gg, cc, co, pe⟩ := s
    simp only at hp
    subst hp
    by_cases h1 : skipResume w m
    · have hstep : stepMsg g c w f t rf inf ⟨gg, cc, co, []⟩ m = ⟨gg, cc, co, []⟩ := by
        simp [stepMsg, h1]
      rw [List.foldl_cons, hstep]
      have hwr : writtenRows g c w f t rf inf co (m :: ms) =
          writtenRows g c w f t rf inf co ms := by
        simp [writtenRows, h1]
      rw [hwr]
      exact ih ⟨gg, cc, co, []⟩ rfl
    · by_cases h2 : skipDate f t m
      · have hstep : stepMsg g c w f t rf inf ⟨gg, cc, co, []⟩ m = ⟨gg, cc, co, []⟩ := by
          simp [stepMsg, h1, h2]
        rw [List.foldl_cons, hstep]
        have hwr : writtenRows g c w f t rf inf co (m :: ms) =
            writtenRows g c w f t rf inf co ms := by
          simp [writtenRows, h1, h2]
        rw [hwr]
        exact ih ⟨gg, cc, co, []⟩ rfl
      · by_cases h3 : inf m
        · have hstep : stepMsg g c w f t rf inf ⟨gg, cc, co, []⟩ m = ⟨gg, cc, co, []⟩ := by
            simp [stepMsg, h1, h2, h3]
          rw [List.foldl_cons, hstep]
          have hwr : writtenRows g c w f t rf inf co (m :: ms) =
              writtenRows g c w f t rf inf co ms := by
            simp [writtenRows, h1, h2, h3]
          rw [hwr]
          exact ih ⟨gg, cc, co, []⟩ rfl
        · by_cases h4 : dupKey co (rowOfMsg g c (rawPathOf rf m) m)
          · have hstep : stepMsg g c w f t rf inf ⟨gg, cc, co, []⟩ m = ⟨gg, cc, co, []⟩ := by
              simp [stepMsg, h1, h2, h3, execInsertMsg, commitDB, h4]
            rw [List.foldl_cons, hstep]
            have hwr : writtenRows g c w f t rf inf co (m :: ms) =
                writtenRows g c w f t rf inf co ms := by
              simp [writtenRows, h1, h2, h3, h4]
            rw [hwr]
            exact ih ⟨gg, cc, co, []⟩ rfl
          · have hstep : stepMsg g c w f t rf inf ⟨gg, cc, co, []⟩ m =
                ⟨gg, cc, co ++ [rowOfMsg g c (rawPathOf rf m) m], []⟩ := by
              simp [stepMsg, h1, h2, h3, execInsertMsg, commitDB, h4]
            rw [List.foldl_cons, hstep]
            have hrest := ih ⟨gg, cc, co ++ [rowOfMsg g c (rawPathOf rf m) m], []⟩ rfl
            refine ⟨hrest.1, hrest.2.1, hrest.2.2.1, ?_⟩
            rw [hrest.2.2.2]
            have hwr : writtenRows g c w f t rf inf co (m :: ms) =
                rowOfMsg g c (rawPathOf rf m) m ::
                  writtenRows g c w f t rf inf
                    (co ++ [rowOfMsg g c (rawPathOf rf m) m]) ms := by
              simp [writtenRows, h1, h2, h3, h4]
            rw [hwr]
            simp

theorem writtenRows_mem (g c : Nat) (w f t : Option Nat) (rf inf : Msg → Bool) :
    ∀ (ms : List Msg) (cur : List Row) (r : Row),
      r ∈ writtenRows g c w f t rf inf cur ms →
      ∃ m ∈ ms, r = rowOfMsg g c (rawPathOf rf m) m ∧ skipResume w m = false ∧
        skipDate f t m = false ∧ inf m = false := by
  intro ms
  induction ms with
  | nil => intro cur r h; exact absurd h (by simp [writtenRows])
  | cons m ms ih =>
    intro cur r h
    by_cases h1 : skipResume w m
    · rw [show writtenRows g c w f t rf inf cur (m :: ms) =
          writtenRows g c w f t rf inf cur ms by simp [writtenRows, h1]] at h
      obtain ⟨m2, hm2, hrest⟩ := ih cur r h
      exact ⟨m2, List.mem_cons_of_mem _ hm2, hrest⟩
    · by_cases h2 : skipDate f t m
      · rw [show writtenRows g c w f t rf inf cur (m :: ms) =
            writtenRows g c w f t rf inf cur ms by simp [writtenRows, h1, h2]] at h
        obtain ⟨m2, hm2, hrest⟩ := ih cur r h
        exact ⟨m2, List.mem_cons_of_mem _ hm2, hrest⟩
      · by_cases h3 : inf m
        · rw [show writtenRows g c w f t rf inf cur (m :: ms) =
              writtenRows g c w f t rf inf cur ms by simp [writtenRows, h1, h2, h3]] at h
          obtain ⟨m2, hm2, hrest⟩ := ih cur r h
          exact ⟨m2, List.mem_cons_of_mem _ hm2, hrest⟩
        · by_cases h4 : dupKey cur (rowOfMsg g c (rawPathOf rf m) m)
          · rw [show writtenRows g c w f t rf inf cur (m :: ms) =
                writtenRows g c w f t rf inf cur ms by
                  simp [writtenRows, h1, h2, h3, h4]] at h
            obtain ⟨m2, hm2, hrest⟩ := ih cur r h
            exact ⟨m2, List.mem_cons_of_mem _ hm2, hrest⟩
          · rw [show writtenRows g c w f t rf inf cur (m :: ms) =
                rowOfMsg g c (rawPathOf rf m) m ::
                  writtenRows g c w f t rf inf
                    (cur ++ [rowOfMsg g c (rawPathOf rf m) m]) ms by
                  simp [writtenRows, h1, h2, h3, h4]] at h
            rcases List.mem_cons.mp h with hr | hr
            · refine ⟨m, List.mem_cons_self _ _, hr, ?_, ?_, ?_⟩
              · simpa using h1
              · simpa using h2
              · simpa using h3
            · obtain ⟨m2, hm2, hrest⟩ := ih _ r hr
              exact ⟨m2, List.mem_cons_of_mem _ hm2, hrest⟩

end DE

namespace DE

theorem extract_messages_spec (guildOk chanOk : Bool) (g c : Nat)
    (gname cname : String) (f t : Option Nat) (rf inf : Msg → Bool)
    (source : List Msg) (ia : Option Nat) (sn en : Nat) (s : DBState)
    (hp : s.pending = []) :
    ∃ d, (extract_messages guildOk chanOk g c gname cname f t rf inf source
        ia sn en s).1.committed = s.committed ++ d ∧
      (extract_messages guildOk chanOk g c gname cname f t rf inf source
        ia sn en s).1.pending = [] ∧
      ∀ r ∈ d, ∃ m ∈ source, r = rowOfMsg g c (rawPathOf rf m) m ∧
        skipResume (last_msg_id s.committed (pyStr g) (pyStr c)) m = false ∧
        skipDate f t m = false ∧ inf m = false := by
  obtain ⟨gg, cc, co, pe⟩ := s
  simp only at hp
  subst hp
  cases guildOk with
  | false => exact ⟨[], by simp [extract_messages, extract_guild_info], rfl, by simp⟩
  | true =>
    cases chanOk with
    | false =>
      exact ⟨[], by simp [extract_messages, extract_guild_info, extract_channel_info],
        rfl, by simp⟩
    | true =>
      cases ia with
      | some k =>
        have hfold := foldl_stepMsg_spec g c
          (last_msg_id co (pyStr g) (pyStr c)) f t rf inf (source.take k)
          ⟨replaceGuild gg ⟨pyStr g, gname, some sn⟩,
           replaceChan cc ⟨pyStr c, pyStr g, cname, some sn⟩, co, []⟩ rfl
        refine ⟨writtenRows g c (last_msg_id co (pyStr g) (pyStr c))
          f t rf inf co (source.take k), hfold.2.2.2, hfold.2.2.1, ?_⟩
        intro r hr
        obtain ⟨m, hm, hrest⟩ := writtenRows_mem g c _ f t rf inf _ _ r hr
        exact ⟨m, List.take_subset k source hm, hrest⟩
      | none =>
        have hfold := foldl_stepMsg_spec g c
          (last_msg_id co (pyStr g) (pyStr c)) f t rf inf source
          ⟨replaceGuild gg ⟨pyStr g, gname, some sn⟩,
           replaceChan cc ⟨pyStr c, pyStr g, cname, some sn⟩, co, []⟩ rfl
        refine ⟨writtenRows g c (last_msg_id co (pyStr g) (pyStr c))
          f t rf inf co source, hfold.2.2.2, hfold.2.2.1, ?_⟩
        intro r hr
        exact writtenRows_mem g c _ f t rf inf _ _ r hr

end DE

namespace DE

theorem dupKey_false_mem {rows : List Row} {r : Row}
    (h : dupKey rows r = false) :
    ∀ x ∈ rows, ¬(x.guild_id = r.guild_id ∧ x.channel_id = r.channel_id ∧
      x.message_id = r.message_id) := by
  intro x hx
  have := List.any_eq_false.mp h x hx
  simpa using this

theorem writtenRows_uniq (g c : Nat) (w f t : Option Nat)
    (rf inf : Msg → Bool) :
    ∀ (ms : List Msg) (cur : List Row), UniqKeys cur →
      UniqKeys (cur ++ writtenRows g c w f t rf inf cur ms) := by
  intro ms
  induction ms with
  | nil => intro cur hu; simpa [writtenRows] using hu
  | cons m ms ih =>
    intro cur hu
    by_cases h1 : skipResume w m
    · rw [show writtenRows g c w f t rf inf cur (m :: ms) =
        writtenRows g c w f t rf inf cur ms by simp [writtenRows, h1]]
      exact ih cur hu
    · by_cases h2 : skipDate f t m
      · rw [show writtenRows g c w f t rf inf cur (m :: ms) =
          writtenRows g c w f t rf inf cur ms by simp [writtenRows, h1, h2]]
        exact ih cur hu
      · by_cases h3 : inf m
        · rw [show writtenRows g c w f t rf inf cur (m :: ms) =
            writtenRows g c w f t rf inf cur ms by simp [writtenRows, h1, h2, h3]]
          exact ih cur hu
        · by_cases h4 : dupKey cur (rowOfMsg g c (rawPathOf rf m) m)
          · rw [show writtenRows g c w f t rf inf cur (m :: ms) =
              writtenRows g c w f t rf inf cur ms by simp [writtenRows, h1, h2, h3, h4]]
            exact ih cur hu
          · rw [show writtenRows g c w f t rf inf cur (m :: ms) =
              rowOfMsg g c (rawPathOf rf m) m ::
                writtenRows g c w f t rf inf
                  (cur ++ [rowOfMsg g c (rawPathOf rf m) m]) ms by
                simp [writtenRows, h1, h2, h3, h4]]
            have hnew : UniqKeys (cur ++ [rowOfMsg g c (rawPathOf rf m) m]) := by
              rw [UniqKeys, List.pairwise_append]
              refine ⟨hu, List.pairwise_singleton _ _, ?_⟩
              intro a ha b hb
              rw [List.mem_singleton.mp hb]
              exact dupKey_false_mem (by simpa using h4) a ha
            have := ih (cur ++ [rowOfMsg g c (rawPathOf rf m) m]) hnew
            rw [UniqKeys] at this ⊢
            rw [List.append_cons]
            exact this

theorem extract_messages_uniq (guildOk chanOk : Bool) (g c : Nat)
    (gname cname : String) (f t : Option Nat) (rf inf : Msg → Bool)
    (source : List Msg) (ia : Option Nat) (sn en : Nat) (s : DBState)
    (hp : s.pending = []) (hu : UniqKeys s.committed) :
    UniqKeys (extract_messages guildOk chanOk g c gname cname f t rf inf
      source ia sn en s).1.committed := by
  obtain ⟨gg, cc, co, pe⟩ := s
  simp only at hp hu
  subst hp
  cases guildOk with
  | false => simpa [extract_messages, extract_guild_info] using hu
  | true =>
    cases chanOk with
    | false =>
      simpa [extract_messages, extract_guild_info, extract_channel_info] using hu
    | true =>
      cases ia with
      | some k =>
        have hfold := foldl_stepMsg_spec g c
          (last_msg_id co (pyStr g) (pyStr c)) f t rf inf (source.take k)
          ⟨replaceGuild gg ⟨pyStr g, gname, some sn⟩,
           replaceChan cc ⟨pyStr c, pyStr g, cname, some sn⟩, co, []⟩ rfl
        have hgoal := writtenRows_uniq g c
          (last_msg_id co (pyStr g) (pyStr c)) f t rf inf (source.take k) co hu
        show UniqKeys _
        rw [show (extract_messages true true g c gname cname f t rf inf source
            (some k) sn en ⟨gg, cc, co, []⟩).1.committed =
          co ++ writtenRows g c (last_msg_id co (pyStr g) (pyStr c))
            f t rf inf co (source.take k) from hfold.2.2.2]
        exact hgoal
      | none =>
        have hfold := foldl_stepMsg_spec g c
          (last_msg_id co (pyStr g) (pyStr c)) f t rf inf source
          ⟨replaceGuild gg ⟨pyStr g, gname, some sn⟩,
           replaceChan cc ⟨pyStr c, pyStr g, cname, some sn⟩, co, []⟩ rfl
        have hgoal := writtenRows_uniq g c
          (last_msg_id co (pyStr g) (pyStr c)) f t rf inf source co hu
        show UniqKeys _
        rw [show (extract_messages true true g c gname cname f t rf inf source
            none sn en ⟨gg, cc, co, []⟩).1.committed =
          co ++ writtenRows g c (last_msg_id co (pyStr g) (pyStr c))
            f t rf inf co source from hfold.2.2.2]
        exact hgoal

theorem msgIdsFor_append (a b : List Row) (g c : String) :
    msgIdsFor (a ++ b) g c = msgIdsFor a g c ++ msgIdsFor b g c := by
  simp [msgIdsFor]

end DE

theorem wmLe_refl (a : Option Nat) : wmLe a a = true := by
  cases a <;> simp [wmLe]

theorem wmLe_trans {a b c : Option Nat} (h1 : wmLe a b = true)
    (h2 : wmLe b c = true) : wmLe a c = true := by
  cases a with
  | none => rfl
  | some v =>
    cases b with
    | none => simp [wmLe] at h1
    | some u =>
      cases c with
      | none => simp [wmLe] at h2
      | some x =>
        simp [wmLe] at h1 h2 ⊢
        omega

namespace DE

theorem skipResume_false_lt {v : Nat} {m : Msg}
    (h : skipResume (some v) m = false) (hv : v ≠ 0) : v < m.id := by
  simp [skipResume, hv] at h
  omega

theorem extract_messages_wf (guildOk chanOk : Bool) (g c : Nat)
    (gname cname : String) (f t : Option Nat) (rf inf : Msg → Bool)
    (source : List Msg) (ia : Option Nat) (sn en : Nat) (s : DBState)
    (hp : s.pending = []) (hwf : WFdb s.committed) :
    WFdb (extract_messages guildOk chanOk g c gname cname f t rf inf
      source ia sn en s).1.committed := by
  obtain ⟨d, hcom, _, hmem⟩ := extract_messages_spec guildOk chanOk g c gname
    cname f t rf inf source ia sn en s hp
  intro r hr
  rw [hcom] at hr
  rcases List.mem_append.mp hr with hold | hnew
  · exact hwf r hold
  · obtain ⟨m, _, hrow, _⟩ := hmem r hnew
    exact ⟨m.id, by rw [hrow]; rfl⟩

theorem extract_messages_wm (guildOk chanOk : Bool) (g c : Nat)
    (gname cname : String) (f t : Option Nat) (rf inf : Msg → Bool)
    (source : List Msg) (ia : Option Nat) (sn en : Nat) (s : DBState)
    (hp : s.pending = []) (gs cs : String) :
    wmLe (last_msg_id s.committed gs cs)
      (last_msg_id (extract_messages guildOk chanOk g c gname cname f t rf inf
        source ia sn en s).1.committed gs cs) = true := by
  obtain ⟨d, hcom, _, hmem⟩ := extract_messages_spec guildOk chanOk g c gname
    cname f t rf inf source ia sn en s hp
  rw [hcom]
  show wmLe (watermarkOfIds (msgIdsFor s.committed gs cs))
    (watermarkOfIds (msgIdsFor (s.committed ++ d) gs cs)) = true
  rw [msgIdsFor_append]
  apply wm_mono
  intro tt htt
  obtain ⟨r, hrmem, hrid⟩ := List.mem_map.mp htt
  have hfil := List.mem_filter.mp hrmem
  obtain ⟨hrd, hkey⟩ := hfil
  have hkey2 : r.guild_id = gs ∧ r.channel_id = cs := of_decide_eq_true hkey
  obtain ⟨m, _, hrow, hskip, _, _⟩ := hmem r hrd
  refine ⟨m.id, ?_, ?_⟩
  · rw [← hrid, hrow]; rfl
  · intro v hv hv0
    have hgseq : pyStr g = gs := by rw [← hkey2.1, hrow]; rfl
    have hcseq : pyStr c = cs := by rw [← hkey2.2, hrow]; rfl
    rw [← hgseq, ← hcseq] at hv
    have : skipResume (some v) m = false := by
      rw [show (some v : Option Nat) = last_msg_id s.committed (pyStr g) (pyStr c) from hv.symm]
      exact hskip
    exact skipResume_false_lt this hv0

theorem applyRun_inv (rs : RunSpec) (s : DBState) (hp : s.pending = [])
    (hwf : WFdb s.committed) :
    (applyRun s rs).pending = [] ∧ WFdb (applyRun s rs).committed := by
  obtain ⟨_, _, hpend, _⟩ := extract_messages_spec rs.guildOk rs.chanOk rs.g
    rs.c rs.gname rs.cname rs.fromD rs.toD rs.rawFails rs.insertFails
    rs.source rs.interruptAfter rs.startNow rs.endNow s hp
  exact ⟨hpend, extract_messages_wf rs.guildOk rs.chanOk rs.g rs.c rs.gname
    rs.cname rs.fromD rs.toD rs.rawFails rs.insertFails rs.source
    rs.interruptAfter rs.startNow rs.endNow s hp hwf⟩

theorem applyRuns_wm (gs cs : String) :
    ∀ (specs : List RunSpec) (s : DBState), s.pending = [] → WFdb s.committed →
      wmLe (last_msg_id s.committed gs cs)
        (last_msg_id (specs.foldl applyRun s).committed gs cs) = true := by
  intro specs
  induction specs with
  | nil => intro s _ _; exact wmLe_refl _
  | cons rs specs ih =>
    intro s hp hwf
    have h1 := extract_messages_wm rs.guildOk rs.chanOk rs.g rs.c rs.gname
      rs.cname rs.fromD rs.toD rs.rawFails rs.insertFails rs.source
      rs.interruptAfter rs.startNow rs.endNow s hp gs cs
    obtain ⟨hpend, hwf2⟩ := applyRun_inv rs s hp hwf
    exact wmLe_trans h1 (ih (applyRun s rs) hpend hwf2)

end DE

namespace DE

theorem lookupChan_update_present :
    ∀ (cs : List ChanRow) (c : String) (now : Nat),
      (∃ x ∈ cs, x.discord_id = c) →
      lookupChan (updateChannelBackfilled cs c now) c = some (some now) := by
  intro cs
  induction cs with
  | nil => intro c now h; obtain ⟨x, hx, _⟩ := h; exact absurd hx (List.not_mem_nil x)
  | cons x xs ih =>
    intro c now h
    by_cases hx : x.discord_id = c
    · simp [updateChannelBackfilled, lookupChan, List.find?, hx]
    · have htail : ∃ y ∈ xs, y.discord_id = c := by
        obtain ⟨y, hy, hyc⟩ := h
        rcases List.mem_cons.mp hy with hyx | hyxs
        · exact absurd (hyx ▸ hyc) hx
        · exact ⟨y, hyxs, hyc⟩
      have := ih c now htail
      simpa [updateChannelBackfilled, lookupChan, List.find?, hx] using this

theorem lookupChan_replaceChan (cs : List ChanRow) (r : ChanRow) :
    lookupChan (replaceChan cs r) r.discord_id = some r.last_backfilled_at := by
  induction cs with
  | nil => simp [replaceChan, lookupChan, List.find?]
  | cons x xs ih =>
    by_cases hx : x.discord_id = r.discord_id
    · simpa [replaceChan, hx] using ih
    · simpa [replaceChan, lookupChan, List.find?, hx] using ih

theorem replaceChan_mem (cs : List ChanRow) (r : ChanRow) :
    ∃ x ∈ replaceChan cs r, x.discord_id = r.discord_id := by
  exact ⟨r, by simp [replaceChan], rfl⟩

end DE

namespace TG

theorem stepTg_channels (cid : Nat) (w f t : Option Nat) (inf : Msg → Bool)
    (s : TGState) (m : Msg) : (stepTg cid w f t inf s m).channels = s.channels := by
  unfold stepTg commitTg execInsertTg
  split_ifs <;> rfl

theorem foldl_stepTg_channels (cid : Nat) (w f t : Option Nat)
    (inf : Msg → Bool) :
    ∀ (ms : List Msg) (s : TGState),
      (ms.foldl (stepTg cid w f t inf) s).channels = s.channels := by
  intro ms
  induction ms with
  | nil => intro s; rfl
  | cons m ms ih =>
    intro s
    rw [List.foldl_cons, ih, stepTg_channels]

theorem lookupChanTg_update_present :
    ∀ (cs : List Chan) (c : String) (now : Nat),
      (∃ x ∈ cs, x.tg_id = c) →
      lookupChanTg (updateChanTg cs c now) c = some (some now) := by
  intro cs
  induction cs with
  | nil => intro c now h; obtain ⟨x, hx, _⟩ := h; exact absurd hx (List.not_mem_nil x)
  | cons x xs ih =>
    intro c now h
    by_cases hx : x.tg_id = c
    · simp [updateChanTg, lookupChanTg, List.find?, hx]
    · have htail : ∃ y ∈ xs, y.tg_id = c := by
        obtain ⟨y, hy, hyc⟩ := h
        rcases List.mem_cons.mp hy with hyx | hyxs
        · exact absurd (hyx ▸ hyc) hx
        · exact ⟨y, hyxs, hyc⟩
      have := ih c now htail
      simpa [updateChanTg, lookupChanTg, List.find?, hx] using this

theorem insertChannelIgnore_mem (cs : List Chan) (r : Chan) :
    ∃ x ∈ insertChannelIgnore cs r, x.tg_id = r.tg_id := by
  unfold insertChannelIgnore
  by_cases h : (cs.any fun x => decide (x.tg_id = r.tg_id)) = true
  · rw [if_pos h]
    obtain ⟨x, hx, hp⟩ := List.any_eq_true.mp h
    exact ⟨x, hx, of_decide_eq_true hp⟩
  · rw [if_neg h]
    exact ⟨r, by simp, rfl⟩

theorem lookupChanTg_insertIgnore (cs : List Chan) (r : Chan) :
    lookupChanTg (insertChannelIgnore cs r) r.tg_id =
      match lookupChanTg cs r.tg_id with
      | some v => some v
      | none => some r.last_backfilled_at := by
  unfold insertChannelIgnore
  by_cases h : (cs.any fun x => decide (x.tg_id = r.tg_id)) = true
  · rw [if_pos h]
    obtain ⟨x, hx, hp⟩ := List.any_eq_true.mp h
    cases hf : lookupChanTg cs r.tg_id with
    | some v => rfl
    | none =>
      unfold lookupChanTg at hf
      cases hfind : List.find? (fun x => decide (x.tg_id = r.tg_id)) cs with
      | some y => rw [hfind] at hf; exact absurd hf (by simp)
      | none =>
        have := List.find?_eq_none.mp hfind x hx
        exact absurd hp this
  · rw [if_neg h]
    have hnone : List.find? (fun x => decide (x.tg_id = r.tg_id)) cs = none := by
      rw [List.find?_eq_none]
      intro x hx
      exact fun hp => h (List.any_eq_true.mpr ⟨x, hx, hp⟩)
    have hlook : lookupChanTg cs r.tg_id = none := by
      unfold lookupChanTg
      rw [hnone]
    rw [hlook]
    induction cs with
    | nil => simp [lookupChanTg, List.find?]
    | cons x xs ih =>
      have hx : (decide (x.tg_id = r.tg_id)) = false := by
        have := List.find?_eq_none.mp hnone x (List.mem_cons_self _ _)
        simpa using this
      have hxs : List.find? (fun y => decide (y.tg_id = r.tg_id)) xs = none := by
        rw [List.find?_eq_none]
        intro y hy
        exact List.find?_eq_none.mp hnone y (List.mem_cons_of_mem _ hy)
      have hxs2 : ¬(xs.any fun y => decide (y.tg_id = r.tg_id)) = true := by
        intro hc
        obtain ⟨y, hy, hp⟩ := List.any_eq_true.mp hc
        exact (List.find?_eq_none.mp hxs y hy) hp
      have hlookxs : lookupChanTg xs r.tg_id = none := by
        unfold lookupChanTg
        rw [hxs]
      have := ih hxs2 hxs hlookxs
      simpa [lookupChanTg, List.find?, hx] using this

end TG

namespace DE

theorem stepMsg_channels (g c : Nat) (w f t : Option Nat)
    (rf inf : Msg → Bool) (s : DBState) (m : Msg) :
    (stepMsg g c w f t rf inf s m).channels = s.channels := by
  unfold stepMsg commitDB execInsertMsg
  split_ifs <;> rfl

theorem foldl_stepMsg_channels (g c : Nat) (w f t : Option Nat)
    (rf inf : Msg → Bool) :
    ∀ (ms : List Msg) (s : DBState),
      (ms.foldl (stepMsg g c w f t rf inf) s).channels = s.channels := by
  intro ms
  induction ms with
  | nil => intro s; rfl
  | cons m ms ih =>
    intro s
    rw [List.foldl_cons, ih, stepMsg_channels]

end DE

/-! Claim theorems. -/

/-- C9 counterexample: with an unresolvable channel, backfill.py
returns normally from run_backfill and the process exits 0, and
discord_extractor.py catches the ValueError in its main block and also
exits 0 — not the non-zero exit code the claim requires on total
failure. -/
theorem c9_counterexample :
    backfill_main true false false = 0 ∧
    discord_main (DiscordRunOutcome.failed "Failed to resolve channel") = 0 :=
  ⟨rfl, rfl⟩

/-- C9 (amended): the CLI ingestion commands exit 0 on full success and
also exit 0 when the requested channel cannot be resolved (the total
failure is only printed); backfill.py exits non-zero exactly when an
exception escapes asyncio.run — a login failure, or an uncaught
mid-iteration error even after records were written — while
discord_extractor.py exits 0 on every outcome. -/
theorem c9_exit_codes :
    (∀ i : Bool, backfill_main true false i = 0) ∧
    (∀ o : DiscordRunOutcome, discord_main o = 0) ∧
    backfill_main true true false = 0 ∧
    backfill_main true true true = 1 ∧
    (∀ r i : Bool, backfill_main false r i = 1) := by
  refine ⟨?_, ?_, rfl, rfl, ?_⟩
  · intro i; cases i <;> rfl
  · intro o; cases o <;> rfl
  · intro r i; rfl

/-- C10 counterexample: when sqlite3.connect raises while opening the
connection — which happens before the try block of insert_message —
the exception propagates to the caller and no connection is closed,
contradicting the claim that insert_message never raises on any sqlite
storage error. -/
theorem c10_counterexample :
    (DDB.insert_message (some "unable to open database file") none [] dataA).raised =
      some "unable to open database file" ∧
    (DDB.insert_message (some "unable to open database file") none [] dataA).ret = none ∧
    (DDB.insert_message (some "unable to open database file") none [] dataA).closed = false := by
  exact ⟨rfl, rfl, rfl⟩

/-- C10 (amended): a sqlite error raised while opening the connection
propagates to the caller of insert_message, with no connection closed;
once a connection is obtained, insert_message never raises — a sqlite
error from execute or commit is caught and False is returned with the
table unchanged, True is returned exactly when the INSERT OR REPLACE
committed, and the connection is closed on every path on which it was
opened. -/
theorem c10_insert_message :
    ∀ (e : String) (sqlErr : Option String) (db : List DDB.DMRow) (m : DDB.MsgData),
      ((DDB.insert_message (some e) sqlErr db m).raised = some e ∧
       (DDB.insert_message (some e) sqlErr db m).closed = false ∧
       (DDB.insert_message (some e) sqlErr db m).db = db) ∧
      ((DDB.insert_message none sqlErr db m).raised = none ∧
       (DDB.insert_message none sqlErr db m).opened = true ∧
       (DDB.insert_message none sqlErr db m).closed = true ∧
       (DDB.insert_message none sqlErr db m).ret = some sqlErr.isNone ∧
       (DDB.insert_message none sqlErr db m).db =
         (match sqlErr with
          | none => DDB.insertOrReplaceDM db (DDB.rowOfData m)
          | some _ => db)) := by
  intro e sqlErr db m
  refine ⟨⟨rfl, rfl, rfl⟩, ?_⟩
  cases sqlErr <;> exact ⟨rfl, rfl, rfl, rfl, rfl⟩

/-- C1 counterexample, in two parts. First, DiscordDatabase.insert_message
uses INSERT OR REPLACE, so inserting message 777 of channel 42 a second
time with new content replaces the stored row — the existing row fields
are overwritten, not left unchanged as the claim states. Second, the
unique key of the extractor's discord_messages table is
(guild_id, channel_id, message_id), not (channel_id, message_id): two
complete ingestion runs naming different guild ids for channel 42 both
store record 1, leaving two rows that share (channel_id, message_id). -/
theorem c1_counterexample :
    ((DDB.insert_message none none [DDB.rowOfData dataA] dataB).db =
       [DDB.rowOfData dataB] ∧
     (DDB.rowOfData dataA).content = some "a" ∧
     (DDB.rowOfData dataB).content = some "b" ∧
     (DDB.rowOfData dataB).message_id = (DDB.rowOfData dataA).message_id ∧
     (DDB.rowOfData dataB).channel_id = (DDB.rowOfData dataA).channel_id) ∧
    (guild8Run.1.committed.map (fun r => (r.channel_id, r.message_id)) =
       [(pyStr 42, pyStr 1), (pyStr 42, pyStr 1)] ∧
     guild8Run.1.committed.map DE.Row.guild_id = [pyStr 7, pyStr 8] ∧
     guild8Run.2 = true) := by
  refine ⟨⟨?_, rfl, rfl, rfl, rfl⟩, by decide, by decide, by decide⟩
  decide

/-- C1 (amended): the INSERT OR IGNORE used by the ingestion loops is a
silent no-op when a row with the same unique key exists — no second
row, no error, no overwrite — but the unique key of discord_messages is
(guild_id, channel_id, message_id): any sequence of ingestion runs
keeps at most one row per (guild_id, channel_id, message_id) triple,
while runs naming different guild ids for the same channel each store
their own row for the same (channel_id, message_id), exhibited by the
two-guild run pair. DiscordDatabase.insert_message also keeps at most
one row per message_id and does not error on a duplicate, but it uses
INSERT OR REPLACE and therefore overwrites the existing row fields. -/
theorem c1_idempotent_insert :
    (∀ (s : DE.DBState) (r : DE.Row),
       DE.dupKey (s.committed ++ s.pending) r = true → DE.execInsertMsg s r = s) ∧
    (∀ (guildOk chanOk : Bool) (g c : Nat) (gname cname : String)
       (f t : Option Nat) (rf inf : DE.Msg → Bool) (source : List DE.Msg)
       (ia : Option Nat) (sn en : Nat) (s : DE.DBState),
       s.pending = [] → DE.UniqKeys s.committed →
       DE.UniqKeys (DE.extract_messages guildOk chanOk g c gname cname f t rf
         inf source ia sn en s).1.committed) ∧
    (∀ (db : List DDB.DMRow) (r : DDB.DMRow),
       DDB.UniqIds db → DDB.UniqIds (DDB.insertOrReplaceDM db r)) ∧
    guild8Run.1.committed.map (fun r => (r.channel_id, r.message_id)) =
      [(pyStr 42, pyStr 1), (pyStr 42, pyStr 1)] := by
  refine ⟨?_, ?_, ?_, by decide⟩
  · intro s r h
    simp [DE.execInsertMsg, h]
  · intro guildOk chanOk g c gname cname f t rf inf source ia sn en s hp hu
    exact DE.extract_messages_uniq guildOk chanOk g c gname cname f t rf inf
      source ia sn en s hp hu
  · intro db r hu
    unfold DDB.insertOrReplaceDM DDB.UniqIds
    rw [List.pairwise_append]
    refine ⟨List.Pairwise.filter _ hu, List.pairwise_singleton _ _, ?_⟩
    intro a ha b hb
    rw [List.mem_singleton.mp hb]
    have := (List.mem_filter.mp ha).2
    simpa using this

/-- C1 witness: re-ingesting record 3 into the database that already
stores it leaves the state untouched, and replacing a row through
insert_message keeps the table free of duplicate message ids. -/
theorem c1_witness :
    DE.execInsertMsg wm3DB (DE.rowOfMsg 7 42 none (demoMsg 3)) = wm3DB ∧
    DDB.UniqIds (DDB.insertOrReplaceDM [DDB.rowOfData dataA] (DDB.rowOfData dataB)) :=
  ⟨c1_idempotent_insert.1 wm3DB (DE.rowOfMsg 7 42 none (demoMsg 3)) (by decide),
   c1_idempotent_insert.2.2.1 [DDB.rowOfData dataA] (DDB.rowOfData dataB)
     (List.pairwise_singleton _ _)⟩

/-- C2 counterexample: the message_id column of discord_messages is
TEXT, so MAX compares lexicographically: with records 9 and 10 stored
for the channel, the watermark query returns 9 although 10 is stored
and 10 is the numeric maximum — not the highest message_id under the
numeric ordering as the claim states. -/
theorem c2_counterexample :
    DE.last_msg_id lexDB (pyStr 7) (pyStr 42) = some 9 ∧
    pyStr 10 ∈ DE.msgIdsFor lexDB (pyStr 7) (pyStr 42) ∧
    ¬(10 ≤ 9) := by
  refine ⟨by decide, by decide, by decide⟩

/-- C2 (amended): the watermark query is a pure function of the stored
table; on a table whose stored message_id values are decimal renderings
of integers it returns None exactly when no messages are stored for the
channel, and otherwise the integer value of the stored message_id that
is greatest in the SQLite TEXT (byte-lexicographic) ordering — which
need not be the numeric maximum when ids differ in digit length. -/
theorem c2_watermark (db : List DE.Row) (g c : String)
    (hwf : WFids (DE.msgIdsFor db g c)) :
    (DE.last_msg_id db g c = none ↔ DE.msgIdsFor db g c = []) ∧
    (∀ v, DE.last_msg_id db g c = some v →
      pyStr v ∈ DE.msgIdsFor db g c ∧
      ∀ s ∈ DE.msgIdsFor db g c, textLt (pyStr v) s = false) := by
  constructor
  · constructor
    · intro h
      by_contra hne
      cases hmax : sqliteTextMax (DE.msgIdsFor db g c) with
      | none => exact hne ((sqliteTextMax_eq_none_iff _).mp hmax)
      | some s =>
        have hs : s ∈ DE.msgIdsFor db g c := by
          rcases foldl_maxStep_mem _ none s hmax with hmem | habs
          · exact hmem
          · exact absurd habs (by simp)
        obtain ⟨n, hn⟩ := hwf s hs
        subst hn
        unfold DE.last_msg_id watermarkOfIds at h
        rw [hmax] at h
        dsimp only at h
        rw [if_neg (pyStr_ne_empty n), pyInt_pyStr n] at h
        exact absurd h (by simp)
    · intro h
      unfold DE.last_msg_id watermarkOfIds
      rw [h]
      rfl
  · intro v hv
    unfold DE.last_msg_id watermarkOfIds at hv
    cases hmax : sqliteTextMax (DE.msgIdsFor db g c) with
    | none => rw [hmax] at hv; exact absurd hv (by simp)
    | some s =>
      rw [hmax] at hv
      dsimp only at hv
      have hs : s ∈ DE.msgIdsFor db g c := by
        rcases foldl_maxStep_mem _ none s hmax with hmem | habs
        · exact hmem
        · exact absurd habs (by simp)
      obtain ⟨n, hn⟩ := hwf s hs
      subst hn
      rw [if_neg (pyStr_ne_empty n), pyInt_pyStr n] at hv
      have hnv : n = v := Option.some.inj hv
      subst hnv
      refine ⟨hs, ?_⟩
      intro x hx
      exact foldl_maxStep_ge _ none _ hmax x hx

/-- C2 witness: on the stored records 9 and 10 of channel 42 the query
returns 9, whose TEXT value is stored and is lexicographically greatest
among the stored ids. -/
theorem c2_witness :
    pyStr 9 ∈ DE.msgIdsFor lexDB (pyStr 7) (pyStr 42) ∧
    ∀ s ∈ DE.msgIdsFor lexDB (pyStr 7) (pyStr 42), textLt (pyStr 9) s = false :=
  (c2_watermark lexDB (pyStr 7) (pyStr 42)
    (by
      intro t ht
      have hids : DE.msgIdsFor lexDB (pyStr 7) (pyStr 42) = [pyStr 9, pyStr 10] := by
        decide
      rw [hids] at ht
      rcases List.mem_cons.mp ht with h9 | hrest
      · exact ⟨9, h9⟩
      · exact ⟨10, List.mem_singleton.mp hrest⟩)).2 9 (by decide)

/-- C3: during a run, the extraction loop discards every record whose
id is at most the starting watermark (for any nonzero watermark value,
matching the Python truthiness guard) without touching the database;
concretely, a first run over records 1..5 interrupted after durably
writing 1,2,3 leaves a state from which a second run over the same
source completes without error, writing exactly records 4 and 5. -/
theorem c3_resume :
    (∀ (g c : Nat) (v : Nat) (f t : Option Nat) (rf inf : DE.Msg → Bool)
       (s : DE.DBState) (m : DE.Msg), 0 < v → m.id ≤ v →
       DE.stepMsg g c (some v) f t rf inf s m = s) ∧
    resumeRun1.1.committed.map DE.Row.message_id = [pyStr 1, pyStr 2, pyStr 3] ∧
    resumeRun2.2 = true ∧
    resumeRun2.1.committed = resumeRun1.1.committed ++
      [DE.rowOfMsg 7 42 (DE.rawPathOf noFail (demoMsg 4)) (demoMsg 4),
       DE.rowOfMsg 7 42 (DE.rawPathOf noFail (demoMsg 5)) (demoMsg 5)] := by
  refine ⟨?_, by decide, by decide, by decide⟩
  intro g c v f t rf inf s m hv hle
  have hskip : DE.skipResume (some v) m = true := by
    simp [DE.skipResume]
    omega
  simp [DE.stepMsg, hskip]

/-- C3 witness: with watermark 3, record 2 is discarded and the state
is unchanged. -/
theorem c3_witness :
    DE.stepMsg 7 42 (some 3) none none noFail noFail emptyDB (demoMsg 2) = emptyDB :=
  c3_resume.1 7 42 3 none none noFail noFail emptyDB (demoMsg 2) (by decide) (by decide)

/-- C5: each accepted record is committed individually — after any
prefix of the source the connection holds no uncommitted rows and the
durable table is exactly the starting table plus the rows accepted so
far, and processing the whole source is the same as continuing from the
state reached at any crash point; backfill.py commits per record in the
same way, reflected by its per-record step leaving no pending rows. -/
theorem c5_per_record_commit :
    (∀ (g c : Nat) (w f t : Option Nat) (rf inf : DE.Msg → Bool)
       (s : DE.DBState) (source : List DE.Msg) (k : Nat), s.pending = [] →
       ((source.take k).foldl (DE.stepMsg g c w f t rf inf) s).pending = [] ∧
       ((source.take k).foldl (DE.stepMsg g c w f t rf inf) s).committed =
         s.committed ++
           DE.writtenRows g c w f t rf inf s.committed (source.take k) ∧
       source.foldl (DE.stepMsg g c w f t rf inf) s =
         (source.drop k).foldl (DE.stepMsg g c w f t rf inf)
           ((source.take k).foldl (DE.stepMsg g c w f t rf inf) s)) ∧
    (∀ (cid : Nat) (w f t : Option Nat) (inf : TG.Msg → Bool)
       (s : TG.TGState) (m : TG.Msg), s.pending = [] →
       (TG.stepTg cid w f t inf s m).pending = [] ∧
       ((TG.stepTg cid w f t inf s m).committed = s.committed ∨
        (TG.stepTg cid w f t inf s m).committed =
          s.committed ++ [TG.rowOfTgMsg cid m])) := by
  refine ⟨?_, ?_⟩
  · intro g c w f t rf inf s source k hp
    have hfold := DE.foldl_stepMsg_spec g c w f t rf inf (source.take k) s hp
    refine ⟨hfold.2.2.1, hfold.2.2.2, ?_⟩
    conv_lhs => rw [← List.take_append_drop k source]
    rw [List.foldl_append]
  · intro cid w f t inf s m hp
    obtain ⟨cc, co, pe⟩ := s
    simp only at hp
    subst hp
    unfold TG.stepTg TG.commitTg TG.execInsertTg
    split_ifs <;> simp_all

/-- C5 witness: after the two-record prefix of the five-record source
the pending set is empty and the durable table is exactly the accepted
prefix rows. -/
theorem c5_witness :
    ((demoSrc5.take 2).foldl (DE.stepMsg 7 42 none none none noFail noFail)
      emptyDB).committed =
    emptyDB.committed ++
      DE.writtenRows 7 42 none none none noFail noFail emptyDB.committed
        (demoSrc5.take 2) :=
  (c5_per_record_commit.1 7 42 none none none noFail noFail emptyDB demoSrc5 2
    rfl).2.1

/-- C6 counterexample: the watermark filter also applies to in-range
records — against a database whose channel watermark is 3 and with the
inclusive window [1, 9] supplied, the in-range record 2 is not
persisted, although the claim says records in range are persisted
regardless of watermark state. -/
theorem c6_counterexample :
    (1 ≤ (demoMsg 2).created_at ∧ (demoMsg 2).created_at ≤ 9) ∧
    wm3Run.1.committed = wm3DB.committed ∧
    wm3Run.2 = true := by
  refine ⟨by decide, by decide, by decide⟩

/-- C6 (amended): a record with a timestamp outside the inclusive
window [start, end] is never persisted, whatever the watermark; a
record inside the window is persisted exactly when it additionally
passes the watermark filter, its INSERT does not fail, and its key is
not already stored — in particular a fresh-channel run over records
dated 1..10 with window [3, 7] persists exactly records 3,4,5,6,7. -/
theorem c6_date_filter :
    (∀ (g c : Nat) (w : Option Nat) (f t : Nat) (rf inf : DE.Msg → Bool)
       (s : DE.DBState) (m : DE.Msg),
       (m.created_at < f ∨ t < m.created_at) →
       DE.stepMsg g c w (some f) (some t) rf inf s m = s) ∧
    (∀ (g c : Nat) (w f t : Option Nat) (rf inf : DE.Msg → Bool)
       (s : DE.DBState) (m : DE.Msg), s.pending = [] →
       DE.skipResume w m = false → DE.skipDate f t m = false → inf m = false →
       DE.dupKey s.committed (DE.rowOfMsg g c (DE.rawPathOf rf m) m) = false →
       (DE.stepMsg g c w f t rf inf s m).committed =
         s.committed ++ [DE.rowOfMsg g c (DE.rawPathOf rf m) m]) ∧
    dateRun.1.committed.map DE.Row.message_id =
      [pyStr 3, pyStr 4, pyStr 5, pyStr 6, pyStr 7] := by
  refine ⟨?_, ?_, by decide⟩
  · intro g c w f t rf inf s m h
    have hdate : DE.skipDate (some f) (some t) m = true := by
      rcases h with h | h <;> simp [DE.skipDate, h]
    by_cases hr : DE.skipResume w m
    · simp [DE.stepMsg, hr]
    · simp [DE.stepMsg, hr, hdate]
  · intro g c w f t rf inf s m hp h1 h2 h3 h4
    obtain ⟨gg, cc, co, pe⟩ := s
    simp only at hp h4
    subst hp
    simp [DE.stepMsg, h1, h2, h3, DE.execInsertMsg, DE.commitDB, h4]

/-- C6 witness: the fresh-channel step persists the in-range record 1,
and the out-of-range record 9 is dropped under the window [3, 7]. -/
theorem c6_witness :
    (DE.stepMsg 7 42 none none none noFail noFail emptyDB (demoMsg 1)).committed =
      emptyDB.committed ++
        [DE.rowOfMsg 7 42 (DE.rawPathOf noFail (demoMsg 1)) (demoMsg 1)] ∧
    DE.stepMsg 7 42 none (some 3) (some 7) noFail noFail emptyDB (demoMsg 9) =
      emptyDB :=
  ⟨c6_date_filter.2.1 7 42 none none none noFail noFail emptyDB (demoMsg 1)
     rfl (by decide) (by decide) (by decide) (by decide),
   c6_date_filter.1 7 42 none 3 7 noFail noFail emptyDB (demoMsg 9)
     (Or.inr (by decide))⟩

/-- C8: a record whose INSERT raises is dropped at the per-record
boundary — the rows written are exactly those of the same run without
the failing record, records written before it are unaffected, and the
run still reaches its completion point. -/
theorem c8_per_record_errors :
    (∀ (g c : Nat) (w f t : Option Nat) (rf inf : DE.Msg → Bool)
       (cur : List DE.Row) (ms1 ms2 : List DE.Msg) (bad : DE.Msg),
       inf bad = true →
       DE.writtenRows g c w f t rf inf cur (ms1 ++ bad :: ms2) =
         DE.writtenRows g c w f t rf inf cur (ms1 ++ ms2)) ∧
    (∀ (g c : Nat) (gname cname : String) (f t : Option Nat)
       (rf inf : DE.Msg → Bool) (source : List DE.Msg) (sn en : Nat)
       (s : DE.DBState),
       (DE.extract_messages true true g c gname cname f t rf inf source none
         sn en s).2 = true) := by
  refine ⟨?_, ?_⟩
  · intro g c w f t rf inf cur ms1 ms2 bad hbad
    induction ms1 generalizing cur with
    | nil =>
      by_cases h1 : DE.skipResume w bad
      · simp [DE.writtenRows, h1]
      · by_cases h2 : DE.skipDate f t bad
        · simp [DE.writtenRows, h1, h2]
        · simp [DE.writtenRows, h1, h2, hbad]
    | cons m ms ih =>
      by_cases h1 : DE.skipResume w m
      · simpa [DE.writtenRows, h1] using ih cur
      · by_cases h2 : DE.skipDate f t m
        · simpa [DE.writtenRows, h1, h2] using ih cur
        · by_cases h3 : inf m
          · simpa [DE.writtenRows, h1, h2, h3] using ih cur
          · by_cases h4 : DE.dupKey cur (DE.rowOfMsg g c (DE.rawPathOf rf m) m)
            · simpa [DE.writtenRows, h1, h2, h3, h4] using ih cur
            · simpa [DE.writtenRows, h1, h2, h3, h4] using
                ih (cur ++ [DE.rowOfMsg g c (DE.rawPathOf rf m) m])
  · intro g c gname cname f t rf inf source sn en s
    rfl

/-- C8 witness: with the INSERT of record 3 failing, the accepted rows
of the run equal those of the run that never saw record 3. -/
theorem c8_witness :
    DE.writtenRows 7 42 none none none noFail failOn3 []
      ([demoMsg 1] ++ demoMsg 3 :: [demoMsg 4]) =
    DE.writtenRows 7 42 none none none noFail failOn3 []
      ([demoMsg 1] ++ [demoMsg 4]) :=
  c8_per_record_errors.1 7 42 none none none noFail failOn3 [] [demoMsg 1]
    [demoMsg 4] (demoMsg 3) (by decide)

/-- C4: across any sequence of ingestion runs — complete, interrupted,
or failing to resolve — the channel watermark never decreases, and
every row a run adds that is new to the table carries a message id
strictly greater than the numeric value of the starting watermark
whenever that watermark is nonzero. -/
theorem c4_monotonic_watermark :
    (∀ (specs : List DE.RunSpec) (s : DE.DBState) (gs cs : String),
       s.pending = [] → DE.WFdb s.committed →
       wmLe (DE.last_msg_id s.committed gs cs)
         (DE.last_msg_id (specs.foldl DE.applyRun s).committed gs cs) = true) ∧
    (∀ (guildOk chanOk : Bool) (g c : Nat) (gname cname : String)
       (f t : Option Nat) (rf inf : DE.Msg → Bool) (source : List DE.Msg)
       (ia : Option Nat) (sn en : Nat) (s : DE.DBState) (v : Nat) (r : DE.Row),
       s.pending = [] →
       DE.last_msg_id s.committed (pyStr g) (pyStr c) = some v → v ≠ 0 →
       r ∈ (DE.extract_messages guildOk chanOk g c gname cname f t rf inf
         source ia sn en s).1.committed →
       r ∉ s.committed →
       ∃ n, r.message_id = pyStr n ∧ v < n) := by
  refine ⟨?_, ?_⟩
  · intro specs s gs cs hp hwf
    exact DE.applyRuns_wm gs cs specs s hp hwf
  · intro guildOk chanOk g c gname cname f t rf inf source ia sn en s v r hp
      hv hv0 hr hnot
    obtain ⟨d, hcom, _, hmem⟩ := DE.extract_messages_spec guildOk chanOk g c
      gname cname f t rf inf source ia sn en s hp
    rw [hcom] at hr
    rcases List.mem_append.mp hr with hold | hnew
    · exact absurd hold hnot
    · obtain ⟨m, _, hrow, hskip, _, _⟩ := hmem r hnew
      refine ⟨m.id, by rw [hrow]; rfl, ?_⟩
      rw [hv] at hskip
      exact DE.skipResume_false_lt hskip hv0

/-- C4 witness: a complete run of the five-record source against the
fresh database does not decrease the watermark of channel 42. -/
theorem c4_witness :
    wmLe (DE.last_msg_id emptyDB.committed (pyStr 7) (pyStr 42))
      (DE.last_msg_id (([demoRunSpec].foldl DE.applyRun emptyDB)).committed
        (pyStr 7) (pyStr 42)) = true :=
  c4_monotonic_watermark.1 [demoRunSpec] emptyDB (pyStr 7) (pyStr 42) rfl
    (fun r hr => absurd hr (List.not_mem_nil r))

/-- C7 counterexample: a run that resolves the channel and is then
interrupted before completing — before processing a single record —
has already overwritten the channel row inside extract_channel_info,
setting last_backfilled_at from 5 to the run start time 99, although
the claim says a run that fails before completing does not update it. -/
theorem c7_counterexample :
    lb5Run.2 = false ∧
    DE.lookupChan lb5Run.1.channels (pyStr 42) = some (some 99) ∧
    DE.lookupChan lb5DB.channels (pyStr 42) = some (some 5) := by
  refine ⟨by decide, by decide, by decide⟩

/-- C7 (amended): in backfill.py, last_backfilled_at is set to the
current time exactly when run_backfill completes its loop — including
a run over an empty source — while a resolution failure leaves the
database untouched and an uncaught mid-iteration error leaves every
previously stored last_backfilled_at value unchanged (at most adding a
fresh channel row whose value is NULL). In discord_extractor.py the
completion update likewise runs exactly when extract_messages returns
normally, but channel resolution at the start of every run already
overwrites the channel row with last_backfilled_at set to the start
time, so an interrupted run has still updated it. -/
theorem c7_last_backfilled :
    (∀ (cid : Nat) (title : Option String) (f t : Option Nat)
       (inf : TG.Msg → Bool) (source : List TG.Msg) (ia : Option Nat)
       (now : Nat) (s : TG.TGState),
       (TG.run_backfill false cid title f t inf source ia now s).1 = s ∧
       (TG.run_backfill false cid title f t inf source ia now s).2 = false) ∧
    (∀ (cid : Nat) (title : Option String) (f t : Option Nat)
       (inf : TG.Msg → Bool) (source : List TG.Msg) (now : Nat)
       (s : TG.TGState),
       (TG.run_backfill true cid title f t inf source none now s).2 = true ∧
       TG.lookupChanTg
         (TG.run_backfill true cid title f t inf source none now s).1.channels
         (pyStr cid) = some (some now)) ∧
    (∀ (cid : Nat) (title : Option String) (f t : Option Nat)
       (inf : TG.Msg → Bool) (source : List TG.Msg) (k : Nat) (now : Nat)
       (s : TG.TGState),
       (TG.run_backfill true cid title f t inf source (some k) now s).2 = false ∧
       TG.lookupChanTg
         (TG.run_backfill true cid title f t inf source (some k) now s).1.channels
         (pyStr cid) =
         (match TG.lookupChanTg s.channels (pyStr cid) with
          | some v => some v
          | none => some none)) ∧
    (∀ (g c : Nat) (gname cname : String) (f t : Option Nat)
       (rf inf : DE.Msg → Bool) (source : List DE.Msg) (sn en : Nat)
       (s : DE.DBState),
       (DE.extract_messages true true g c gname cname f t rf inf source none
         sn en s).2 = true ∧
       DE.lookupChan
         (DE.extract_messages true true g c gname cname f t rf inf source none
           sn en s).1.channels (pyStr c) = some (some en)) ∧
    (∀ (g c : Nat) (gname cname : String) (f t : Option Nat)
       (rf inf : DE.Msg → Bool) (source : List DE.Msg) (k : Nat) (sn en : Nat)
       (s : DE.DBState),
       (DE.extract_messages true true g c gname cname f t rf inf source
         (some k) sn en s).2 = false ∧
       DE.lookupChan
         (DE.extract_messages true true g c gname cname f t rf inf source
           (some k) sn en s).1.channels (pyStr c) = some (some sn)) := by
  refine ⟨?_, ?_, ?_, ?_, ?_⟩
  · intro cid title f t inf source ia now s
    exact ⟨rfl, rfl⟩
  · intro cid title f t inf source now s
    refine ⟨rfl, ?_⟩
    show TG.lookupChanTg
      (TG.updateChanTg
        (source.foldl
          (TG.stepTg cid
            (TG.lastMsgIdTg s.committed (pyStr cid)) f t inf)
          ⟨TG.insertChannelIgnore s.channels ⟨pyStr cid, title, none⟩,
           s.committed, s.pending⟩).channels
        (pyStr cid) now)
      (pyStr cid) = some (some now)
    rw [TG.foldl_stepTg_channels]
    exact TG.lookupChanTg_update_present _ _ _
      (TG.insertChannelIgnore_mem s.channels ⟨pyStr cid, title, none⟩)
  · intro cid title f t inf source k now s
    refine ⟨rfl, ?_⟩
    show TG.lookupChanTg
      ((source.take k).foldl
        (TG.stepTg cid
          (TG.lastMsgIdTg s.committed (pyStr cid)) f t inf)
        ⟨TG.insertChannelIgnore s.channels ⟨pyStr cid, title, none⟩,
         s.committed, s.pending⟩).channels
      (pyStr cid) = _
    rw [TG.foldl_stepTg_channels]
    exact TG.lookupChanTg_insertIgnore s.channels ⟨pyStr cid, title, none⟩
  · intro g c gname cname f t rf inf source sn en s
    refine ⟨rfl, ?_⟩
    show DE.lookupChan
      (DE.updateChannelBackfilled
        (source.foldl
          (DE.stepMsg g c
            (DE.last_msg_id s.committed (pyStr g) (pyStr c)) f t rf inf)
          ⟨DE.replaceGuild s.guilds ⟨pyStr g, gname, some sn⟩,
           DE.replaceChan s.channels ⟨pyStr c, pyStr g, cname, some sn⟩,
           s.committed, s.pending⟩).channels
        (pyStr c) en)
      (pyStr c) = some (some en)
    rw [DE.foldl_stepMsg_channels]
    exact DE.lookupChan_update_present _ _ _
      (DE.replaceChan_mem s.channels ⟨pyStr c, pyStr g, cname, some sn⟩)
  · intro g c gname cname f t rf inf source k sn en s
    refine ⟨rfl, ?_⟩
    show DE.lookupChan
      ((source.take k).foldl
        (DE.stepMsg g c
          (DE.last_msg_id s.committed (pyStr g) (pyStr c)) f t rf inf)
        ⟨DE.replaceGuild s.guilds ⟨pyStr g, gname, some sn⟩,
         DE.replaceChan s.channels ⟨pyStr c, pyStr g, cname, some sn⟩,
         s.committed, s.pending⟩).channels
      (pyStr c) = some (some sn)
    rw [DE.foldl_stepMsg_channels]
    exact DE.lookupChan_replaceChan s.channels ⟨pyStr c, pyStr g, cname, some sn⟩
